import Mathlib

/-!
Verification of the focus-scope engine of `react-lit-focus-scope`
(`src/src/index.js`) over a shallow embedding of the DOM fragments the
library manipulates.

A document is embedded as a flattened element tree: the list of element
nodes in document (preorder) order, each carrying its depth in the tree.
Node identity is a numeric id.  Tree relations (`parentElement`,
`previousElementSibling`, `nextElementSibling`, `Node.contains`, the
descendants visited by a `TreeWalker`) are computed from this flattening.

The library's `TreeWalker` filter only ever returns `FILTER_ACCEPT` or
`FILTER_SKIP` in the code paths exercised here (the `opts.from` rejection
branch is never reached: no caller passes `from`), so `nextNode()` /
`previousNode()` enumerate exactly the accepted strict descendants of the
walker root after / before the current node, in document order; the
embedding models a walker step as the head of that candidate list.

Focus side effects are made explicit: `document.activeElement` is an
`Option Nat` threaded through the handlers; a JavaScript `TypeError`
(e.g. dereferencing `scope[0]` on an empty scope list, or assigning
`null` to `walker.currentNode`) is an `Except.error`.
-/

/-- Element node of the embedded DOM.  The fields record exactly the
attributes and style properties inspected by `src/src/index.js`:
the tag (`nodeName`, uppercase, `"#comment"` for comments), whether the
node is an `HTMLElement`/`SVGElement` (the `instanceof` guard of
`isStyleVisible`), inline and computed `display`/`visibility`, and the
attributes used by the focusable/tabbable selectors. -/
structure Elem where
  id : Nat
  nodeName : String
  isHTMLOrSVG : Bool := true
  styleDisplay : String := ""
  styleVisibility : String := ""
  computedDisplay : String := "block"
  computedVisibility : String := "visible"
  disabled : Bool := false
  hiddenAttr : Bool := false
  openAttr : Bool := false
  typeAttr : Option String := none
  hrefAttr : Bool := false
  controlsAttr : Bool := false
  contenteditableAttr : Bool := false
  tabindexAttr : Option String := none
  deriving Repr, DecidableEq

/-- A document node: an element together with its depth in the tree. -/
structure DNode where
  elem : Elem
  depth : Nat
  deriving Repr, DecidableEq

/-- A document: element nodes in document (preorder) order with depths. -/
abbrev Doc := List DNode

/-- Lookup of a node by id. -/
def nodeAt (doc : Doc) (n : Nat) : Option DNode :=
  doc.find? (fun x => x.elem.id == n)

/-- Ids of the strict descendants of `n`, in document order (the run of
nodes following `n` whose depth stays below `n`'s depth). -/
def strictDesc (doc : Doc) (n : Nat) : List Nat :=
  match doc.dropWhile (fun x => x.elem.id != n) with
  | [] => []
  | x :: rest => (rest.takeWhile (fun y => decide (x.depth < y.depth))).map (fun y => y.elem.id)

/-- DOM `a.contains(b)`: `b` is `a` itself or a descendant of `a`. -/
def containsNode (doc : Doc) (a b : Nat) : Bool :=
  a == b || (strictDesc doc a).contains b

/-- DOM `element.parentElement`: the nearest preceding shallower node. -/
def parentOf (doc : Doc) (n : Nat) : Option Nat :=
  match doc.find? (fun x => x.elem.id == n) with
  | none => none
  | some x =>
    (((doc.takeWhile (fun y => y.elem.id != n)).reverse).find?
      (fun y => decide (y.depth < x.depth))).map (fun y => y.elem.id)

/-- DOM `element.previousElementSibling`: nearest preceding node of equal
depth, not looking past the parent boundary. -/
def prevElementSibling (doc : Doc) (n : Nat) : Option Nat :=
  match doc.find? (fun x => x.elem.id == n) with
  | none => none
  | some x =>
    ((((doc.takeWhile (fun y => y.elem.id != n)).reverse).takeWhile
        (fun y => decide (x.depth ≤ y.depth))).find?
      (fun y => y.depth == x.depth)).map (fun y => y.elem.id)

/-- DOM `element.nextElementSibling`: first node after `n`'s subtree,
provided it sits at the same depth (otherwise the parent has ended). -/
def nextElementSibling (doc : Doc) (n : Nat) : Option Nat :=
  match doc.dropWhile (fun x => x.elem.id != n) with
  | [] => none
  | x :: rest =>
    match rest.dropWhile (fun y => decide (x.depth < y.depth)) with
    | [] => none
    | y :: _ => if y.depth == x.depth then some y.elem.id else none

/-- Ancestor elements of `n`, nearest first (the `parentElement` chain). -/
def ancestorElems (doc : Doc) (n : Nat) : List Elem :=
  match doc.find? (fun x => x.elem.id == n) with
  | none => []
  | some x =>
    (((doc.takeWhile (fun y => y.elem.id != n)).reverse).foldl
      (fun acc y => if y.depth < acc.2 then (acc.1 ++ [y.elem], y.depth) else acc)
      (([] : List Elem), x.depth)).1

/-- `isElementInScope` (src/src/index.js lines 205-207):
`scope.some(node => node.contains(element))`. -/
def isElementInScope (doc : Doc) (element : Nat) (scope : List Nat) : Bool :=
  scope.any (fun node => containsNode doc node element)

/-- `isElementInScope` applied to a possibly-null element
(`node.contains(null)` is `false`). -/
def isElementInScopeOpt (doc : Doc) (element : Option Nat) (scope : List Nat) : Bool :=
  match element with
  | none => false
  | some e => isElementInScope doc e scope

/-- `isElementInAnyScope` (src/src/index.js lines 189-196). -/
def isElementInAnyScope (doc : Doc) (element : Nat) (scopes : List (List Nat)) : Bool :=
  scopes.any (fun scope => isElementInScope doc element scope)

/-- The `TABBABLE_ELEMENT_SELECTOR` of src/src/index.js lines 211-235: each
of the thirteen focusable selectors suffixed by
`:not([hidden]):not([tabindex="-1"])` via the `join`, plus the final
`[tabindex]:not([tabindex="-1"]):not([disabled])` alternative (which, being
the last `join` element, carries no `:not([hidden])` suffix). -/
def matchesTabbableSelector (el : Elem) : Bool :=
  let common := !el.hiddenAttr && el.tabindexAttr != some "-1"
  (el.nodeName == "INPUT" && !el.disabled && el.typeAttr != some "hidden" && common) ||
  (el.nodeName == "SELECT" && !el.disabled && common) ||
  (el.nodeName == "TEXTAREA" && !el.disabled && common) ||
  (el.nodeName == "BUTTON" && !el.disabled && common) ||
  (el.nodeName == "A" && el.hrefAttr && common) ||
  (el.nodeName == "AREA" && el.hrefAttr && common) ||
  (el.nodeName == "SUMMARY" && common) ||
  (el.nodeName == "IFRAME" && common) ||
  (el.nodeName == "OBJECT" && common) ||
  (el.nodeName == "EMBED" && common) ||
  (el.nodeName == "AUDIO" && el.controlsAttr && common) ||
  (el.nodeName == "VIDEO" && el.controlsAttr && common) ||
  (el.contenteditableAttr && common) ||
  (el.tabindexAttr.isSome && el.tabindexAttr != some "-1" && !el.disabled)

/-- `isStyleVisible` (src/src/index.js lines 291-313): `false` unless the
element is an `HTMLElement` or `SVGElement`; then the inline style must not
set `display:none` / `visibility:hidden` / `visibility:collapse`, and only
if the inline style passes is the computed style checked the same way. -/
def isStyleVisible (element : Elem) : Bool :=
  if !element.isHTMLOrSVG then false
  else if element.styleDisplay != "none" && element.styleVisibility != "hidden" &&
      element.styleVisibility != "collapse" then
    element.computedDisplay != "none" && element.computedVisibility != "hidden" &&
      element.computedVisibility != "collapse"
  else false

/-- `isAttributeVisible` (src/src/index.js lines 323-332): no `hidden`
attribute, and a `DETAILS` element checked on behalf of a non-`SUMMARY`
child must additionally carry `open`. -/
def isAttributeVisible (element : Elem) (childElement : Option Elem) : Bool :=
  !element.hiddenAttr &&
    (if element.nodeName == "DETAILS" &&
        (match childElement with
         | some c => c.nodeName != "SUMMARY"
         | none => false) then
      element.openAttr
    else true)

/-- `isElementVisible` (src/src/index.js lines 341-348), with the
`parentElement` recursion materialised over the ancestor chain (nearest
ancestor first); the recursive call passes the current element as
`childElement`. -/
def isElementVisibleAux : Elem → Option Elem → List Elem → Bool
  | element, childElement, ancestors =>
    element.nodeName != "#comment" &&
    isStyleVisible element &&
    isAttributeVisible element childElement &&
    (match ancestors with
     | [] => true
     | p :: rest => isElementVisibleAux p (some element) rest)

/-- `isElementVisible` on a node of a document. -/
def isElementVisible (doc : Doc) (n : Nat) : Bool :=
  match nodeAt doc n with
  | none => false
  | some x => isElementVisibleAux x.elem none (ancestorElems doc n)

/-- The `acceptNode` filter of `getFocusableTreeWalker`
(src/src/index.js lines 260-275) for `opts.tabbable = true` and no
`opts.from` (no caller passes `from`): accept iff the node matches the
tabbable selector, is visible, and — when a scope is supplied — lies in
the scope. -/
def acceptNode (doc : Doc) (scope : Option (List Nat)) (n : Nat) : Bool :=
  match nodeAt doc n with
  | none => false
  | some x =>
    matchesTabbableSelector x.elem && isElementVisible doc n &&
      (match scope with
       | none => true
       | some s => isElementInScope doc n s)

/-- The nodes a `TreeWalker` rooted at `root` can still return after
(`shift = false`, `nextNode()`) or before (`shift = true`,
`previousNode()`) the current node, in the order the walker would return
them.  With an accept/skip-only filter these are exactly the accepted
strict descendants of `root` after / before `cur` in document order
(nearest first for the backward direction). -/
def walkerCandidates (doc : Doc) (root : Nat) (scope : Option (List Nat))
    (shift : Bool) (cur : Nat) : List Nat :=
  match shift with
  | true =>
    (if cur == root then []
     else ((strictDesc doc root).takeWhile (fun x => x != cur)).reverse).filter
      (acceptNode doc scope)
  | false =>
    (if cur == root then strictDesc doc root
     else ((strictDesc doc root).dropWhile (fun x => x != cur)).drop 1).filter
      (acceptNode doc scope)

/-- One `walker.nextNode()` / `walker.previousNode()` step. -/
def walkerStep (doc : Doc) (root : Nat) (scope : Option (List Nat))
    (shift : Bool) (cur : Nat) : Option Nat :=
  (walkerCandidates doc root scope shift cur).head?

/-- The tabbable elements of a scope in document order: the nodes of the
scope root's subtree accepted by the scope-restricted tabbable filter. -/
def tabbables (doc : Doc) (root : Nat) (scope : List Nat) : List Nat :=
  (strictDesc doc root).filter (acceptNode doc (some scope))

/-- `getScopeRoot` (src/src/index.js lines 356-358):
`scope[0].parentElement`; on an empty scope list `scope[0]` is `undefined`
and the property access throws. -/
def getScopeRoot (doc : Doc) (scope : List Nat) : Except Unit (Option Nat) :=
  match scope with
  | [] => .error ()
  | first :: _ => .ok (parentOf doc first)

/-- `focusElement` (src/src/index.js lines 367-381): focusing `null` is a
no-op, focusing a node makes it the active element (focus errors are
swallowed). -/
def focusElement (element : Option Nat) (active : Option Nat) : Option Nat :=
  match element with
  | some n => some n
  | none => active

/-- The wrap re-seed of the containment `onKeyDown`
(src/src/index.js lines 106-108): Shift+Tab re-seeds at
`scope[scope.length - 1].nextElementSibling`, plain Tab at
`scope[0].previousElementSibling`. -/
def containWrapSeed (doc : Doc) (scope : List Nat) (shift : Bool) : Option Nat :=
  if shift then
    scope.getLast?.bind (fun l => nextElementSibling doc l)
  else
    scope.head?.bind (fun f => prevElementSibling doc f)

/-- A keyboard event as inspected by the handlers. -/
structure KeyEvent where
  key : String
  altKey : Bool := false
  ctrlKey : Bool := false
  metaKey : Bool := false
  shiftKey : Bool := false
  deriving Repr, DecidableEq

/-- Result of the containment keydown handler: whether `preventDefault`
was called, and the active element afterwards. -/
structure ContainKeyResult where
  prevented : Bool
  active : Option Nat
  deriving Repr, DecidableEq

/-- Core of the containment `onKeyDown` (src/src/index.js lines 97-115),
after the key guard and the in-scope check have passed, for a focused
element `focusedElement` inside the scope: walk to the adjacent tabbable
node restricted to the scope, wrap via `containWrapSeed` when none exists
(assigning a `null` seed to `walker.currentNode` throws), then
`preventDefault` and focus the node found, if any. -/
def containTabLogic (doc : Doc) (scope : List Nat) (shift : Bool)
    (focusedElement : Nat) : Except Unit ContainKeyResult :=
  match getScopeRoot doc scope with
  | .error _ => .error ()
  | .ok none => .error ()
  | .ok (some root) =>
    match walkerStep doc root (some scope) shift focusedElement with
    | some n => .ok ⟨true, focusElement (some n) (some focusedElement)⟩
    | none =>
      match containWrapSeed doc scope shift with
      | none => .error ()
      | some seed =>
        .ok ⟨true, focusElement (walkerStep doc root (some scope) shift seed)
                     (some focusedElement)⟩

/-- The containment `onKeyDown` of `useFocusContainment`
(src/src/index.js lines 87-116): ignore anything but an unmodified Tab,
ignore it when the active element is outside the scope, otherwise run the
containment logic. -/
def onKeyDownContain (doc : Doc) (scope : List Nat) (e : KeyEvent)
    (active : Option Nat) : Except Unit ContainKeyResult :=
  if e.key != "Tab" || e.altKey || e.ctrlKey || e.metaKey then .ok ⟨false, active⟩
  else
    match active with
    | none => .ok ⟨false, none⟩
    | some focusedElement =>
      if !(isElementInScope doc focusedElement scope) then .ok ⟨false, some focusedElement⟩
      else containTabLogic doc scope e.shiftKey focusedElement

/-- `focusFirstInScope` (src/src/index.js lines 389-398): seed the
scope-restricted tabbable walker at `scope[0].previousElementSibling` and
focus the first node it yields.  On an empty scope list `scope[0]` is
`undefined` and the handler throws; a `null` scope root or sentinel also
throws (at `createTreeWalker` / the `currentNode` assignment). -/
def focusFirstInScope (doc : Doc) (scope : List Nat) (active : Option Nat) :
    Except Unit (Option Nat) :=
  match scope with
  | [] => .error ()
  | first :: _ =>
    match parentOf doc first with
    | none => .error ()
    | some root =>
      match prevElementSibling doc first with
      | none => .error ()
      | some sentinel =>
        .ok (focusElement (walkerStep doc root (some scope) false sentinel) active)

/-- The `onFocus` handler of `useFocusContainment`
(src/src/index.js lines 125-138).  It is attached both at the document
level and on every scope node (lines 158-162), so it runs for focus-in
events anywhere in the document.  Returns the global active-scope slot,
this scope's `focusedNode` record, and the active element afterwards. -/
def onFocusContain (doc : Doc) (scopes : List (List Nat)) (thisScope : List Nat)
    (activeScope : Option (List Nat)) (focusedNode : Option Nat)
    (target : Nat) (active : Option Nat) :
    Except Unit (Option (List Nat) × Option Nat × Option Nat) :=
  if isElementInAnyScope doc target scopes then
    .ok (some thisScope, some target, active)
  else
    match focusedNode with
    | some fn => .ok (activeScope, focusedNode, some fn)
    | none =>
      match activeScope with
      | some sc =>
        match focusFirstInScope doc sc active with
        | .error e => .error e
        | .ok a => .ok (activeScope, focusedNode, a)
      | none => .ok (activeScope, focusedNode, active)

/-- Result of the restoration keydown handler: whether
`preventDefault`/`stopPropagation` were called, the active element
afterwards, and the (possibly nulled) `nodeToRestore` variable. -/
structure RestoreKeyResult where
  prevented : Bool
  stopped : Bool
  active : Option Nat
  nodeToRestore : Option Nat
  deriving Repr, DecidableEq

/-- The `do { nextElement = walker.next/previousNode() } while
(isElementInScope(nextElement, scope))` loop of the restoration handler
(src/src/index.js lines 459-463), run over the walker's remaining
candidates: the first candidate not inside the scope, if any. -/
def skipScopeLoop (doc : Doc) (scope : List Nat) : List Nat → Option Nat
  | [] => none
  | n :: rest =>
    if isElementInScope doc n scope then skipScopeLoop doc scope rest else some n

/-- The `nodeToRestore` nulling of the restoration handler
(src/src/index.js lines 441-446): the captured restore target is dropped
when it is no longer attached under `document.body` or is the body
itself. -/
def restoreTargetCheck (doc : Doc) (body : Nat) (nodeToRestore : Option Nat) : Option Nat :=
  match nodeToRestore with
  | some t => if !(containsNode doc body t) || t == body then none else some t
  | none => none

/-- Core of the restoration `onKeyDown` (src/src/index.js lines 427-474),
after the key guard and the in-scope check have passed: walk the
whole-document tabbable order from the focused element; null out
`nodeToRestore` via `restoreTargetCheck`; if the walk left the scope (or
found nothing) and a restore target remains, re-walk from the restore
target skipping in-scope candidates, consume the event, and focus the
candidate — or blur the focused element (focus falls to the body) if none
exists. -/
def restoreTabLogic (doc : Doc) (body : Nat) (scope : List Nat) (shift : Bool)
    (focusedElement : Nat) (nodeToRestore : Option Nat) : RestoreKeyResult :=
  match restoreTargetCheck doc body nodeToRestore with
  | none => ⟨false, false, some focusedElement, none⟩
  | some t =>
    if (walkerStep doc body none shift focusedElement).isNone ||
        !(isElementInScopeOpt doc (walkerStep doc body none shift focusedElement) scope) then
      match skipScopeLoop doc scope (walkerCandidates doc body none shift t) with
      | some n => ⟨true, true, some n, some t⟩
      | none => ⟨true, true, some body, some t⟩
    else ⟨false, false, some focusedElement, some t⟩

/-- The `onKeyDown` of `useRestoreFocus` (src/src/index.js lines 422-475),
active when `contain = false`.  `body` is the id of `document.body` (the
root of the document).  Ignores anything but an unmodified Tab, ignores it
when the active element is outside the scope, and otherwise runs the
boundary hand-off logic. -/
def onKeyDownRestore (doc : Doc) (body : Nat) (scope : List Nat) (e : KeyEvent)
    (active : Option Nat) (nodeToRestore : Option Nat) : RestoreKeyResult :=
  if e.key != "Tab" || e.altKey || e.ctrlKey || e.metaKey then
    ⟨false, false, active, nodeToRestore⟩
  else
    match active with
    | none => ⟨false, false, none, nodeToRestore⟩
    | some focusedElement =>
      if !(isElementInScope doc focusedElement scope) then
        ⟨false, false, some focusedElement, nodeToRestore⟩
      else restoreTabLogic doc body scope e.shiftKey focusedElement nodeToRestore

/-- The cleanup of `useRestoreFocus` (src/src/index.js lines 481-497):
when `restoreFocus` is set, a restore target was captured, and the active
element is inside the scope at teardown, schedule a refocus of the target
for the next animation frame, re-checking there that the target is still
attached (`docAtFrame` is the document at that deferred check). -/
def useRestoreFocusCleanup (doc docAtFrame : Doc) (body : Nat) (scope : List Nat)
    (restoreFocus : Bool) (nodeToRestore : Option Nat) (active : Option Nat) :
    Option Nat :=
  match nodeToRestore with
  | none => active
  | some t =>
    if restoreFocus && isElementInScopeOpt doc active scope then
      (if containsNode docAtFrame body t then focusElement (some t) active else active)
    else active

/-- `useAutoFocus` (src/src/index.js lines 510-526): with `autoFocus` set
and no `initialFocusRef`, mark this scope active and focus the first
tabbable element unless focus is already inside the scope; with an
`initialFocusRef` resolving to a node, mark this scope active and focus
that node unless focus is already inside the scope.  Returns the active
element afterwards and whether this scope was marked active.
`initialFocusRef = none` models no ref supplied; `some current` models a
supplied ref with its `current` value. -/
def useAutoFocus (doc : Doc) (scope : List Nat) (autoFocus : Bool)
    (initialFocusRef : Option (Option Nat)) (active : Option Nat) :
    Except Unit (Option Nat × Bool) :=
  let step1 : Except Unit (Option Nat × Bool) :=
    if autoFocus && initialFocusRef.isNone then
      if !(isElementInScopeOpt doc active scope) then
        match focusFirstInScope doc scope active with
        | .error e => .error e
        | .ok a => .ok (a, true)
      else .ok (active, true)
    else .ok (active, false)
  match step1 with
  | .error e => .error e
  | .ok (a1, m1) =>
    match initialFocusRef with
    | some (some t) =>
      if !(isElementInScopeOpt doc a1 scope) then .ok (focusElement (some t) a1, true)
      else .ok (a1, true)
    | _ => .ok (a1, m1)

/-- `k` consecutive keydowns dispatched to the containment handler, with
the active element threaded through (a thrown handler aborts the run). -/
def iterTab (doc : Doc) (scope : List Nat) (shift : Bool) :
    Nat → Option Nat → Except Unit (Option Nat)
  | 0, active => .ok active
  | Nat.succ k, active =>
    match onKeyDownContain doc scope { key := "Tab", shiftKey := shift } active with
    | .error e => .error e
    | .ok r => iterTab doc scope shift k r.active

/-! ## List helpers for walker reasoning -/

lemma dropWhile_ne_middle {a : Nat} :
    ∀ {l₁ l₂ : List Nat}, a ∉ l₁ →
      (l₁ ++ a :: l₂).dropWhile (fun x => x != a) = a :: l₂ := by
  intro l₁
  induction l₁ with
  | nil =>
    intro l₂ _
    simp [List.dropWhile_cons]
  | cons x l₁ ih =>
    intro l₂ h
    have hxa : x ≠ a := by
      intro hxa
      exact h (by simp [hxa])
    have hal : a ∉ l₁ := fun hm => h (List.mem_cons_of_mem _ hm)
    simpa [List.dropWhile_cons, bne_iff_ne, hxa] using ih hal

lemma takeWhile_ne_middle {a : Nat} :
    ∀ {l₁ l₂ : List Nat}, a ∉ l₁ →
      (l₁ ++ a :: l₂).takeWhile (fun x => x != a) = l₁ := by
  intro l₁
  induction l₁ with
  | nil =>
    intro l₂ _
    simp [List.takeWhile_cons]
  | cons x l₁ ih =>
    intro l₂ h
    have hxa : x ≠ a := by
      intro hxa
      exact h (by simp [hxa])
    have hal : a ∉ l₁ := fun hm => h (List.mem_cons_of_mem _ hm)
    simpa [List.takeWhile_cons, bne_iff_ne, hxa] using ih hal

lemma length_eq_of_getElem?_middle {A B : List Nat} {a : Nat} {i : Nat}
    (hnd : (A ++ a :: B).Nodup) (h : (A ++ a :: B)[i]? = some a) : i = A.length := by
  have hout : a ∉ A ++ B := (List.nodup_cons.mp (List.nodup_middle.mp hnd)).1
  by_cases hi : i < A.length
  · exfalso
    rw [List.getElem?_append_left hi] at h
    exact hout (List.mem_append_left _ (List.getElem?_mem h))
  · have hle : A.length ≤ i := Nat.le_of_not_lt hi
    rw [List.getElem?_append_right hle] at h
    rcases hj : i - A.length with _ | j
    · omega
    · exfalso
      rw [hj] at h
      simp only [List.getElem?_cons_succ] at h
      exact hout (List.mem_append_right _ (List.getElem?_mem h))

lemma filtered_suffix_at {L : List Nat} {p : Nat → Bool} {i : Nat} {a : Nat}
    (hnd : L.Nodup) (hget : (L.filter p)[i]? = some a) :
    (((L.dropWhile (fun x => x != a)).drop 1).filter p).head? = (L.filter p)[i + 1]? := by
  have hmem : a ∈ L.filter p := List.getElem?_mem hget
  have hpa : p a = true := (List.mem_filter.mp hmem).2
  obtain ⟨l₁, l₂, rfl⟩ := List.append_of_mem (List.mem_filter.mp hmem).1
  have hout : a ∉ l₁ ++ l₂ := (List.nodup_cons.mp (List.nodup_middle.mp hnd)).1
  have h₁ : a ∉ l₁ := fun hm => hout (List.mem_append_left _ hm)
  rw [dropWhile_ne_middle h₁, List.drop_one, List.tail_cons]
  have hfil : (l₁ ++ a :: l₂).filter p = l₁.filter p ++ a :: l₂.filter p := by
    rw [List.filter_append, List.filter_cons_of_pos hpa]
  rw [hfil] at hget ⊢
  have hndf : (l₁.filter p ++ a :: l₂.filter p).Nodup := by
    rw [← hfil]; exact hnd.filter p
  have hilen : i = (l₁.filter p).length := length_eq_of_getElem?_middle hndf hget
  rw [List.getElem?_append_right (by omega)]
  have : i + 1 - (l₁.filter p).length = 1 := by omega
  rw [this, List.getElem?_cons_succ, ← List.head?_eq_getElem?]

lemma filtered_prefix_at {L : List Nat} {p : Nat → Bool} {i : Nat} {a : Nat}
    (hnd : L.Nodup) (hget : (L.filter p)[i]? = some a) :
    (((L.takeWhile (fun x => x != a)).reverse).filter p).head? =
      if i = 0 then none else (L.filter p)[i - 1]? := by
  have hmem : a ∈ L.filter p := List.getElem?_mem hget
  have hpa : p a = true := (List.mem_filter.mp hmem).2
  obtain ⟨l₁, l₂, rfl⟩ := List.append_of_mem (List.mem_filter.mp hmem).1
  have hout : a ∉ l₁ ++ l₂ := (List.nodup_cons.mp (List.nodup_middle.mp hnd)).1
  have h₁ : a ∉ l₁ := fun hm => hout (List.mem_append_left _ hm)
  rw [takeWhile_ne_middle h₁, List.filter_reverse, List.head?_reverse]
  have hfil : (l₁ ++ a :: l₂).filter p = l₁.filter p ++ a :: l₂.filter p := by
    rw [List.filter_append, List.filter_cons_of_pos hpa]
  rw [hfil] at hget ⊢
  have hndf : (l₁.filter p ++ a :: l₂.filter p).Nodup := by
    rw [← hfil]; exact hnd.filter p
  have hilen : i = (l₁.filter p).length := length_eq_of_getElem?_middle hndf hget
  rcases hi : i with _ | j
  · have : l₁.filter p = [] := List.length_eq_zero.mp (by omega)
    simp [this]
  · rw [if_neg (by omega), List.getElem?_append_left (by omega), List.getLast?_eq_getElem?]
    congr 1
    omega

/-! ## Well-formed containment configuration

The shape a mounted `FocusScope` document fragment has (src/src/index.js
lines 40-53 and 59-65): the scope root's strict descendants are a hidden
start sentinel, the scope subtrees, and a hidden end sentinel; ids are
unique; the walker root is the scope's parent; the wrap re-seeds resolve
to the two sentinels, which the tabbable filter rejects. -/
structure ContainWF (doc : Doc) (root startS endS : Nat) (scope M : List Nat) : Prop where
  hdesc : strictDesc doc root = startS :: (M ++ [endS])
  hnodup : (startS :: (M ++ [endS])).Nodup
  hrootNotIn : root ∉ startS :: (M ++ [endS])
  hroot : getScopeRoot doc scope = .ok (some root)
  hseedF : containWrapSeed doc scope false = some startS
  hseedB : containWrapSeed doc scope true = some endS
  hsNotAcc : acceptNode doc (some scope) startS = false
  heNotAcc : acceptNode doc (some scope) endS = false

lemma acceptNode_inScope {doc : Doc} {s : List Nat} {n : Nat}
    (h : acceptNode doc (some s) n = true) : isElementInScope doc n s = true := by
  unfold acceptNode at h
  rcases hx : nodeAt doc n with _ | x
  · rw [hx] at h
    exact absurd h (by simp)
  · rw [hx] at h
    simp only [Bool.and_eq_true] at h
    exact h.2

lemma ContainWF.tabbables_eq {doc : Doc} {root startS endS : Nat} {scope M : List Nat}
    (wf : ContainWF doc root startS endS scope M) :
    tabbables doc root scope = M.filter (acceptNode doc (some scope)) := by
  unfold tabbables
  have hs : ¬ (acceptNode doc (some scope) startS = true) := by simp [wf.hsNotAcc]
  have he : ¬ (acceptNode doc (some scope) endS = true) := by simp [wf.heNotAcc]
  rw [wf.hdesc, List.filter_cons_of_neg hs, List.filter_append]
  rw [List.filter_cons_of_neg he]
  simp

lemma ContainWF.startS_mem {doc : Doc} {root startS endS : Nat} {scope M : List Nat}
    (wf : ContainWF doc root startS endS scope M) : startS ∈ strictDesc doc root := by
  rw [wf.hdesc]; exact List.mem_cons_self _ _

lemma ContainWF.endS_mem {doc : Doc} {root startS endS : Nat} {scope M : List Nat}
    (wf : ContainWF doc root startS endS scope M) : endS ∈ strictDesc doc root := by
  rw [wf.hdesc]
  exact List.mem_cons_of_mem _ (List.mem_append_right _ (List.mem_singleton.mpr rfl))

lemma ContainWF.ne_root {doc : Doc} {root startS endS : Nat} {scope M : List Nat}
    (wf : ContainWF doc root startS endS scope M) {n : Nat}
    (hn : n ∈ strictDesc doc root) : n ≠ root := by
  intro h
  rw [wf.hdesc] at hn
  exact wf.hrootNotIn (h ▸ hn)

/-- A Tab wrap forward re-enters at the first tabbable of the scope:
stepping the walker forward from the start sentinel yields the head of the
tabbable list. -/
lemma walkerStep_from_startS {doc : Doc} {root startS endS : Nat} {scope M : List Nat}
    (wf : ContainWF doc root startS endS scope M) :
    walkerStep doc root (some scope) false startS = (tabbables doc root scope)[0]? := by
  have hne : ¬ ((startS == root) = true) := by simp [wf.ne_root wf.startS_mem]
  have he : ¬ (acceptNode doc (some scope) endS = true) := by simp [wf.heNotAcc]
  have hdw : (startS :: (M ++ [endS])).dropWhile (fun x => x != startS) = startS :: (M ++ [endS]) := by
    rw [List.dropWhile_cons]
    simp
  simp only [walkerStep, walkerCandidates]
  rw [if_neg hne, wf.hdesc, hdw, List.drop_one, List.tail_cons, List.filter_append]
  rw [List.filter_cons_of_neg he, ← List.head?_eq_getElem?, wf.tabbables_eq]
  simp

/-- A Shift+Tab wrap backward re-enters at the last tabbable of the scope:
stepping the walker backward from the end sentinel yields the last element
of the tabbable list. -/
lemma walkerStep_from_endS {doc : Doc} {root startS endS : Nat} {scope M : List Nat}
    (wf : ContainWF doc root startS endS scope M) :
    walkerStep doc root (some scope) true endS =
      (tabbables doc root scope)[(tabbables doc root scope).length - 1]? := by
  have hne : ¬ ((endS == root) = true) := by simp [wf.ne_root wf.endS_mem]
  have hs : ¬ (acceptNode doc (some scope) startS = true) := by simp [wf.hsNotAcc]
  have hassoc : startS :: (M ++ [endS]) = (startS :: M) ++ endS :: [] := by simp
  have hnotm : endS ∉ startS :: M := by
    have hnd := wf.hnodup
    rw [hassoc] at hnd
    exact fun hm => (List.nodup_cons.mp (List.nodup_middle.mp hnd)).1
      (by simpa using List.mem_append_left ([] : List Nat) hm)
  simp only [walkerStep, walkerCandidates]
  rw [if_neg hne, wf.hdesc, hassoc, takeWhile_ne_middle hnotm]
  rw [List.filter_reverse, List.head?_reverse]
  rw [List.getLast?_eq_getElem?, wf.tabbables_eq]
  rw [List.filter_cons_of_neg hs]

lemma onKeyDownContain_tab {doc : Doc} {scope : List Nat} {shift : Bool} {a : Nat}
    (h : isElementInScope doc a scope = true) :
    onKeyDownContain doc scope { key := "Tab", shiftKey := shift } (some a) =
      containTabLogic doc scope shift a := by
  unfold onKeyDownContain
  simp [h]

lemma containTabLogic_some {doc : Doc} {scope : List Nat} {shift : Bool} {a root n : Nat}
    (hroot : getScopeRoot doc scope = .ok (some root))
    (hstep : walkerStep doc root (some scope) shift a = some n) :
    containTabLogic doc scope shift a = .ok ⟨true, some n⟩ := by
  simp only [containTabLogic, hroot, hstep]
  rfl

lemma containTabLogic_wrap {doc : Doc} {scope : List Nat} {shift : Bool} {a root seed : Nat}
    (hroot : getScopeRoot doc scope = .ok (some root))
    (hstep : walkerStep doc root (some scope) shift a = none)
    (hseed : containWrapSeed doc scope shift = some seed) :
    containTabLogic doc scope shift a =
      .ok ⟨true, focusElement (walkerStep doc root (some scope) shift seed) (some a)⟩ := by
  simp only [containTabLogic, hroot, hstep, hseed]

/-- One unmodified Tab inside a well-formed contained scope moves focus
from the tabbable at index `i` to the one at index `(i + 1) % N`,
wrapping from the last to the first, and consumes the event. -/
lemma contain_step_forward {doc : Doc} {root startS endS : Nat} {scope M : List Nat}
    (wf : ContainWF doc root startS endS scope M) {i a : Nat}
    (hget : (tabbables doc root scope)[i]? = some a) :
    ∃ b, (tabbables doc root scope)[(i + 1) % (tabbables doc root scope).length]? = some b ∧
      onKeyDownContain doc scope { key := "Tab" } (some a) = .ok ⟨true, some b⟩ := by
  have hi : i < (tabbables doc root scope).length :=
    (List.getElem?_eq_some_iff.mp hget).1
  have hmemf : a ∈ (strictDesc doc root).filter (acceptNode doc (some scope)) :=
    List.getElem?_mem hget
  have hacc : acceptNode doc (some scope) a = true := (List.mem_filter.mp hmemf).2
  have hmemL : a ∈ strictDesc doc root := (List.mem_filter.mp hmemf).1
  have hinsc : isElementInScope doc a scope = true := acceptNode_inScope hacc
  have haroot : ¬ ((a == root) = true) := by simp [wf.ne_root hmemL]
  have hnd : (strictDesc doc root).Nodup := by rw [wf.hdesc]; exact wf.hnodup
  have hstep : walkerStep doc root (some scope) false a =
      (tabbables doc root scope)[i + 1]? := by
    simp only [walkerStep, walkerCandidates]
    rw [if_neg haroot]
    exact filtered_suffix_at hnd hget
  rw [onKeyDownContain_tab hinsc]
  by_cases hlt : i + 1 < (tabbables doc root scope).length
  · refine ⟨(tabbables doc root scope)[i + 1], ?_, ?_⟩
    · rw [Nat.mod_eq_of_lt hlt]
      exact List.getElem?_eq_getElem hlt
    · rw [containTabLogic_some wf.hroot
        (hstep.trans (List.getElem?_eq_getElem hlt))]
  · have heq : i + 1 = (tabbables doc root scope).length := by omega
    have hnone : (tabbables doc root scope)[i + 1]? = none :=
      List.getElem?_eq_none (by omega)
    have h0 : 0 < (tabbables doc root scope).length := by omega
    refine ⟨(tabbables doc root scope)[0], ?_, ?_⟩
    · rw [heq, Nat.mod_self]
      exact List.getElem?_eq_getElem h0
    · rw [containTabLogic_wrap wf.hroot (hstep.trans hnone) wf.hseedF,
        walkerStep_from_startS wf, List.getElem?_eq_getElem h0]
      rfl

/-- One Shift+Tab inside a well-formed contained scope moves focus from
the tabbable at index `i` to the one at index `(i + N - 1) % N`, wrapping
from the first to the last, and consumes the event. -/
lemma contain_step_backward {doc : Doc} {root startS endS : Nat} {scope M : List Nat}
    (wf : ContainWF doc root startS endS scope M) {i a : Nat}
    (hget : (tabbables doc root scope)[i]? = some a) :
    ∃ b, (tabbables doc root scope)[(i + (tabbables doc root scope).length - 1) %
          (tabbables doc root scope).length]? = some b ∧
      onKeyDownContain doc scope { key := "Tab", shiftKey := true } (some a) =
        .ok ⟨true, some b⟩ := by
  have hi : i < (tabbables doc root scope).length :=
    (List.getElem?_eq_some_iff.mp hget).1
  have hmemf : a ∈ (strictDesc doc root).filter (acceptNode doc (some scope)) :=
    List.getElem?_mem hget
  have hacc : acceptNode doc (some scope) a = true := (List.mem_filter.mp hmemf).2
  have hmemL : a ∈ strictDesc doc root := (List.mem_filter.mp hmemf).1
  have hinsc : isElementInScope doc a scope = true := acceptNode_inScope hacc
  have haroot : ¬ ((a == root) = true) := by simp [wf.ne_root hmemL]
  have hnd : (strictDesc doc root).Nodup := by rw [wf.hdesc]; exact wf.hnodup
  have hstep : walkerStep doc root (some scope) true a =
      (if i = 0 then none else (tabbables doc root scope)[i - 1]?) := by
    simp only [walkerStep, walkerCandidates]
    rw [if_neg haroot]
    exact filtered_prefix_at hnd hget
  rw [onKeyDownContain_tab hinsc]
  rcases Nat.eq_zero_or_pos i with hz | hpos
  · subst hz
    have h0 : 0 < (tabbables doc root scope).length := by omega
    have hlast : (tabbables doc root scope).length - 1 < (tabbables doc root scope).length := by
      omega
    refine ⟨(tabbables doc root scope)[(tabbables doc root scope).length - 1], ?_, ?_⟩
    · rw [Nat.zero_add, Nat.mod_eq_of_lt (by omega)]
      exact List.getElem?_eq_getElem hlast
    · rw [containTabLogic_wrap wf.hroot (hstep.trans (if_pos rfl)) wf.hseedB,
        walkerStep_from_endS wf, List.getElem?_eq_getElem hlast]
      rfl
  · have hj : i - 1 < (tabbables doc root scope).length := by omega
    have hsome : walkerStep doc root (some scope) true a =
        some (tabbables doc root scope)[i - 1] := by
      rw [hstep, if_neg (by omega)]
      exact List.getElem?_eq_getElem hj
    refine ⟨(tabbables doc root scope)[i - 1], ?_, ?_⟩
    · have harith : (i + (tabbables doc root scope).length - 1) %
          (tabbables doc root scope).length = i - 1 := by
        have h1 : i + (tabbables doc root scope).length - 1 =
            (i - 1) + (tabbables doc root scope).length := by omega
        rw [h1, Nat.add_mod_right, Nat.mod_eq_of_lt hj]
      rw [harith]
      exact List.getElem?_eq_getElem hj
    · rw [containTabLogic_some wf.hroot hsome]

lemma iterTab_forward {doc : Doc} {root startS endS : Nat} {scope M : List Nat}
    (wf : ContainWF doc root startS endS scope M) (k : Nat) :
    ∀ {i a : Nat}, (tabbables doc root scope)[i]? = some a →
      ∃ b, (tabbables doc root scope)[(i + k) % (tabbables doc root scope).length]? = some b ∧
        iterTab doc scope false k (some a) = .ok (some b) := by
  induction k with
  | zero =>
    intro i a hget
    have hi : i < (tabbables doc root scope).length := (List.getElem?_eq_some_iff.mp hget).1
    exact ⟨a, by rw [Nat.add_zero, Nat.mod_eq_of_lt hi]; exact hget, rfl⟩
  | succ k ih =>
    intro i a hget
    obtain ⟨b₁, hb₁, hstep⟩ := contain_step_forward wf hget
    obtain ⟨b, hb, hiter⟩ := ih hb₁
    refine ⟨b, ?_, ?_⟩
    · rw [Nat.mod_add_mod] at hb
      have harith : i + 1 + k = i + (k + 1) := by omega
      rw [harith] at hb
      exact hb
    · show iterTab doc scope false (k + 1) (some a) = .ok (some b)
      simp only [iterTab, hstep]
      exact hiter

lemma iterTab_backward {doc : Doc} {root startS endS : Nat} {scope M : List Nat}
    (wf : ContainWF doc root startS endS scope M) (k : Nat) :
    ∀ {i a : Nat}, (tabbables doc root scope)[i]? = some a →
      ∃ b, (tabbables doc root scope)[(i + k * ((tabbables doc root scope).length - 1)) %
            (tabbables doc root scope).length]? = some b ∧
        iterTab doc scope true k (some a) = .ok (some b) := by
  induction k with
  | zero =>
    intro i a hget
    have hi : i < (tabbables doc root scope).length := (List.getElem?_eq_some_iff.mp hget).1
    exact ⟨a, by rw [Nat.zero_mul, Nat.add_zero, Nat.mod_eq_of_lt hi]; exact hget, rfl⟩
  | succ k ih =>
    intro i a hget
    have hi : i < (tabbables doc root scope).length := (List.getElem?_eq_some_iff.mp hget).1
    obtain ⟨b₁, hb₁, hstep⟩ := contain_step_backward wf hget
    obtain ⟨b, hb, hiter⟩ := ih hb₁
    refine ⟨b, ?_, ?_⟩
    · rw [Nat.mod_add_mod] at hb
      have harith : i + (tabbables doc root scope).length - 1 +
          k * ((tabbables doc root scope).length - 1) =
          i + (k + 1) * ((tabbables doc root scope).length - 1) := by
        rw [Nat.succ_mul]
        omega
      rw [harith] at hb
      exact hb
    · show iterTab doc scope true (k + 1) (some a) = .ok (some b)
      simp only [iterTab, hstep]
      exact hiter

/-- C1: for every scope mounted with `contain = true` holding `N` tabbable
descendants, starting with focus on the first tabbable descendant, `N`
consecutive unmodified Tab keydowns return focus to the first tabbable
descendant (focus cycles through the `N` descendants in document order),
and symmetrically `N` consecutive Shift+Tab keydowns from the first
descendant also return focus to it, cycling in reverse order. -/
theorem contain_tab_cycles {doc : Doc} {root startS endS : Nat} {scope M : List Nat}
    (wf : ContainWF doc root startS endS scope M) {a : Nat}
    (ha : (tabbables doc root scope)[0]? = some a) :
    iterTab doc scope false (tabbables doc root scope).length (some a) = .ok (some a) ∧
    iterTab doc scope true (tabbables doc root scope).length (some a) = .ok (some a) := by
  constructor
  · obtain ⟨b, hb, hit⟩ := iterTab_forward wf (tabbables doc root scope).length ha
    rw [Nat.zero_add, Nat.mod_self, ha] at hb
    injection hb with hba
    rw [← hba] at hit
    exact hit
  · obtain ⟨b, hb, hit⟩ := iterTab_backward wf (tabbables doc root scope).length ha
    rw [Nat.zero_add, Nat.mul_mod_right, ha] at hb
    injection hb with hba
    rw [← hba] at hit
    exact hit

/-- Demo document: the mounted fragment of the test
"should contain focus within the scope" — a container (id 0) holding the
hidden start sentinel (1), three inputs (2, 3, 4) and the hidden end
sentinel (5). -/
def demoDoc : Doc :=
  [⟨{ id := 0, nodeName := "DIV" }, 0⟩,
   ⟨{ id := 1, nodeName := "SPAN", hiddenAttr := true }, 1⟩,
   ⟨{ id := 2, nodeName := "INPUT" }, 1⟩,
   ⟨{ id := 3, nodeName := "INPUT" }, 1⟩,
   ⟨{ id := 4, nodeName := "INPUT" }, 1⟩,
   ⟨{ id := 5, nodeName := "SPAN", hiddenAttr := true }, 1⟩]

lemma demoWF : ContainWF demoDoc 0 1 5 [2, 3, 4] [2, 3, 4] :=
  ⟨rfl, by decide, by decide, rfl, rfl, rfl, by decide, by decide⟩

/-- C1 witness: in the three-input demo scope, three Tabs from the first
input return focus to it, and so do three Shift+Tabs. -/
theorem contain_tab_cycles_witness :
    iterTab demoDoc [2, 3, 4] false (tabbables demoDoc 0 [2, 3, 4]).length (some 2) =
      .ok (some 2) ∧
    iterTab demoDoc [2, 3, 4] true (tabbables demoDoc 0 [2, 3, 4]).length (some 2) =
      .ok (some 2) :=
  contain_tab_cycles demoWF (by decide)

/-- C3 counterexample: the claim says the walker is re-seeded at the node
just after the scope's last node when moving forward; in the demo scope
the forward wrap re-seed is the start sentinel (id 1), the node just
before the scope's first node, while the node just after the scope's last
node is the end sentinel (id 5). -/
theorem contain_wrap_seed_counterexample :
    containWrapSeed demoDoc [2, 3, 4] false = some 1 ∧
    ([2, 3, 4] : List Nat).getLast?.bind (fun l => nextElementSibling demoDoc l) = some 5 ∧
    (1 : Nat) ≠ 5 :=
  ⟨rfl, rfl, by decide⟩

/-- C3 amended: when an unmodified Tab (or Shift+Tab) finds no adjacent
tabbable node within the scope, the walker is re-seeded at the node just
BEFORE the scope's first node when moving forward, and at the node just
AFTER the scope's last node when moving backward (the seeds are the
reverse of the claim's), and then one more step is taken in the same
direction, so that Tab from the last tabbable element focuses the first
and Shift+Tab from the first focuses the last. -/
theorem contain_wrap_amended {doc : Doc} {root startS endS : Nat} {scope M : List Nat}
    (wf : ContainWF doc root startS endS scope M) {a b : Nat}
    (ha : (tabbables doc root scope)[0]? = some a)
    (hb : (tabbables doc root scope)[(tabbables doc root scope).length - 1]? = some b) :
    containWrapSeed doc scope false = scope.head?.bind (fun f => prevElementSibling doc f) ∧
    containWrapSeed doc scope true = scope.getLast?.bind (fun l => nextElementSibling doc l) ∧
    onKeyDownContain doc scope { key := "Tab" } (some b) = .ok ⟨true, some a⟩ ∧
    onKeyDownContain doc scope { key := "Tab", shiftKey := true } (some a) = .ok ⟨true, some b⟩ := by
  have h0 : 0 < (tabbables doc root scope).length := (List.getElem?_eq_some_iff.mp ha).1
  refine ⟨rfl, rfl, ?_, ?_⟩
  · obtain ⟨c, hc, hstep⟩ := contain_step_forward wf hb
    have harith : (tabbables doc root scope).length - 1 + 1 = (tabbables doc root scope).length := by
      omega
    rw [harith, Nat.mod_self, ha] at hc
    injection hc with hca
    rw [hca]
    exact hstep
  · obtain ⟨c, hc, hstep⟩ := contain_step_backward wf ha
    rw [Nat.zero_add, Nat.mod_eq_of_lt (by omega), hb] at hc
    injection hc with hcb
    rw [hcb]
    exact hstep

/-- C3 amended witness: in the demo scope Tab from the last input (4)
focuses the first (2) and Shift+Tab from the first focuses the last. -/
theorem contain_wrap_amended_witness :
    containWrapSeed demoDoc [2, 3, 4] false =
      ([2, 3, 4] : List Nat).head?.bind (fun f => prevElementSibling demoDoc f) ∧
    containWrapSeed demoDoc [2, 3, 4] true =
      ([2, 3, 4] : List Nat).getLast?.bind (fun l => nextElementSibling demoDoc l) ∧
    onKeyDownContain demoDoc [2, 3, 4] { key := "Tab" } (some 4) = .ok ⟨true, some 2⟩ ∧
    onKeyDownContain demoDoc [2, 3, 4] { key := "Tab", shiftKey := true } (some 2) =
      .ok ⟨true, some 4⟩ :=
  contain_wrap_amended demoWF (by decide) (by decide)

/-- C10: in a scope with `contain = true`, every unmodified Tab keydown
whose focused element lies within the scope is consumed (`preventDefault`
is called) unconditionally; even when the wrap step also yields no
tabbable candidate, the event is consumed and focus is left unchanged. -/
theorem contain_tab_consumed {doc : Doc} {scope : List Nat} {root a seed : Nat}
    (ha : isElementInScope doc a scope = true)
    (hroot : getScopeRoot doc scope = .ok (some root))
    (hseed : containWrapSeed doc scope false = some seed) :
    (onKeyDownContain doc scope { key := "Tab" } (some a)).map (fun r => r.prevented) =
      .ok true ∧
    (walkerStep doc root (some scope) false a = none →
      walkerStep doc root (some scope) false seed = none →
      onKeyDownContain doc scope { key := "Tab" } (some a) = .ok ⟨true, some a⟩) := by
  rw [onKeyDownContain_tab ha]
  rcases hs : walkerStep doc root (some scope) false a with _ | n
  · rw [containTabLogic_wrap hroot hs hseed]
    refine ⟨rfl, ?_⟩
    intro _ h2
    rw [h2]
    rfl
  · rw [containTabLogic_some hroot hs]
    refine ⟨rfl, ?_⟩
    intro h1 _
    cases h1

/-- Document with a scope that has no tabbable element at all: a container
(0), the hidden start sentinel (1), a plain `div` (2, the scope) and the
hidden end sentinel (3). -/
def nonTabDoc : Doc :=
  [⟨{ id := 0, nodeName := "DIV" }, 0⟩,
   ⟨{ id := 1, nodeName := "SPAN", hiddenAttr := true }, 1⟩,
   ⟨{ id := 2, nodeName := "DIV" }, 1⟩,
   ⟨{ id := 3, nodeName := "SPAN", hiddenAttr := true }, 1⟩]

/-- C10 witness: with focus on the non-tabbable scope div itself, Tab is
consumed and focus stays put even though the walk and the wrap both find
nothing. -/
theorem contain_tab_consumed_witness :
    (onKeyDownContain nonTabDoc [2] { key := "Tab" } (some 2)).map (fun r => r.prevented) =
      .ok true ∧
    (walkerStep nonTabDoc 0 (some [2]) false 2 = none →
      walkerStep nonTabDoc 0 (some [2]) false 1 = none →
      onKeyDownContain nonTabDoc [2] { key := "Tab" } (some 2) = .ok ⟨true, some 2⟩) :=
  contain_tab_consumed (by decide) rfl rfl

/-- C8: on mount of a scope with `autoFocus = true` and no explicit
initial-focus target: if no descendant of the scope already holds focus,
focus moves to the first tabbable element of the scope in document order;
if some descendant already holds focus, the auto-focus pass leaves focus
unchanged (the scope is marked active either way). -/
theorem autofocus_first_tabbable {doc : Doc} {root startS endS : Nat} {scope M : List Nat}
    (wf : ContainWF doc root startS endS scope M) {t : Nat}
    (ht : (tabbables doc root scope)[0]? = some t) (active : Option Nat) :
    (isElementInScopeOpt doc active scope = false →
      useAutoFocus doc scope true none active = .ok (some t, true)) ∧
    (isElementInScopeOpt doc active scope = true →
      useAutoFocus doc scope true none active = .ok (active, true)) := by
  have hffis : focusFirstInScope doc scope active = .ok (some t) := by
    rcases hsc : scope with _ | ⟨first, rest⟩
    · have h := wf.hroot
      rw [hsc] at h
      exact absurd h (by simp [getScopeRoot])
    · have hpar : parentOf doc first = some root := by
        have h := wf.hroot
        rw [hsc] at h
        simpa [getScopeRoot] using h
      have hprev : prevElementSibling doc first = some startS := by
        have h := wf.hseedF
        rw [hsc] at h
        simpa [containWrapSeed] using h
      have hws : walkerStep doc root (some scope) false startS = some t :=
        (walkerStep_from_startS wf).trans ht
      rw [hsc] at hws
      simp only [focusFirstInScope, hpar, hprev, hws]
      rfl
  constructor
  · intro hout
    simp [useAutoFocus, hout, hffis]
  · intro hin
    simp [useAutoFocus, hin]

/-- C8 witness: mounting the demo scope with nothing focused moves focus
to the first input; mounting it with a descendant focused would leave
focus unchanged. -/
theorem autofocus_first_tabbable_witness :
    (isElementInScopeOpt demoDoc none [2, 3, 4] = false →
      useAutoFocus demoDoc [2, 3, 4] true none none = .ok (some 2, true)) ∧
    (isElementInScopeOpt demoDoc none [2, 3, 4] = true →
      useAutoFocus demoDoc [2, 3, 4] true none none = .ok (none, true)) :=
  autofocus_first_tabbable demoWF (by decide) none

/-- C9: when an explicit `initialFocusRef` resolving to a node `t` is
supplied and focus is not already inside the scope, `t` is focused and the
scope is marked active, regardless of the `autoFocus` flag. -/
theorem initial_focus_ref_wins {doc : Doc} {scope : List Nat} (autoFocus : Bool) {t : Nat}
    (active : Option Nat) (hout : isElementInScopeOpt doc active scope = false) :
    useAutoFocus doc scope autoFocus (some (some t)) active = .ok (some t, true) := by
  simp [useAutoFocus, hout, focusElement]

/-- C9 witness: in the demo scope, with `autoFocus = false` and an
`initialFocusRef` resolving to the third input, mounting focuses that
input and marks the scope active. -/
theorem initial_focus_ref_wins_witness :
    useAutoFocus demoDoc [2, 3, 4] false (some (some 4)) none = .ok (some 4, true) :=
  initial_focus_ref_wins false none (by decide)

/-- Document with two sibling mounted scopes under one body: scope A is
node 2 (between sentinels 1 and 3), scope B is node 5 (between sentinels
4 and 6). -/
def twoScopeDoc : Doc :=
  [⟨{ id := 0, nodeName := "BODY" }, 0⟩,
   ⟨{ id := 1, nodeName := "SPAN", hiddenAttr := true }, 1⟩,
   ⟨{ id := 2, nodeName := "INPUT" }, 1⟩,
   ⟨{ id := 3, nodeName := "SPAN", hiddenAttr := true }, 1⟩,
   ⟨{ id := 4, nodeName := "SPAN", hiddenAttr := true }, 1⟩,
   ⟨{ id := 5, nodeName := "INPUT" }, 1⟩,
   ⟨{ id := 6, nodeName := "SPAN", hiddenAttr := true }, 1⟩]

/-- C2 counterexample: scopes A = [2] and B = [5] are both registered; a
focus-in whose target is node 5 (inside scope B, not inside scope A)
processed by scope A's document-level focus-in listener marks scope A
active and records node 5 as scope A's last-focused node — the claim says
such an event never updates scope A's record or marks it active. -/
theorem focus_record_counterexample :
    onFocusContain twoScopeDoc [[2], [5]] [2] none none 5 (some 5) =
      .ok (some [2], some 5, some 5) ∧
    isElementInScope twoScopeDoc 5 [2] = false :=
  ⟨rfl, by decide⟩

/-- C2 amended: the focus-in handler is attached at the document level as
well as on the scope's own nodes, so it records any target contained in
SOME registered scope (not necessarily this one) and marks this scope
active; the per-scope last-focused record is therefore at all times either
unchanged (in particular null) or a node that was contained in some
registered scope at the moment it was recorded. -/
theorem focus_record_amended {doc : Doc} {scopes : List (List Nat)} {thisScope : List Nat}
    {activeScope : Option (List Nat)} {focusedNode : Option Nat} {target : Nat}
    {active : Option Nat} {as' : Option (List Nat)} {fn' a' : Option Nat}
    (h : onFocusContain doc scopes thisScope activeScope focusedNode target active =
      .ok (as', fn', a')) :
    fn' = focusedNode ∨ (fn' = some target ∧ isElementInAnyScope doc target scopes = true) := by
  unfold onFocusContain at h
  by_cases hin : isElementInAnyScope doc target scopes = true
  · rw [if_pos hin] at h
    simp only [Except.ok.injEq, Prod.mk.injEq] at h
    exact Or.inr ⟨h.2.1.symm, hin⟩
  · rw [if_neg hin] at h
    rcases hfn : focusedNode with _ | fn
    · subst hfn
      rcases has : activeScope with _ | sc
      · subst has
        simp only [Except.ok.injEq, Prod.mk.injEq] at h
        exact Or.inl h.2.1.symm
      · subst has
        rcases hr : focusFirstInScope doc sc active with e | a
        · simp only [hr] at h
          cases h
        · simp only [hr, Except.ok.injEq, Prod.mk.injEq] at h
          exact Or.inl h.2.1.symm
    · subst hfn
      simp only [Except.ok.injEq, Prod.mk.injEq] at h
      exact Or.inl h.2.1.symm

/-- C2 amended witness: the concrete cross-scope focus-in above satisfies
the amended invariant — the recorded node 5 lies in some registered
scope. -/
theorem focus_record_amended_witness :
    (some 5 : Option Nat) = none ∨
      ((some 5 : Option Nat) = some 5 ∧ isElementInAnyScope twoScopeDoc 5 [[2], [5]] = true) :=
  focus_record_amended
    (show onFocusContain twoScopeDoc [[2], [5]] [2] none none 5 (some 5) =
      .ok (some [2], some 5, some 5) from rfl)

lemma skipScopeLoop_eq_find {doc : Doc} {scope : List Nat} :
    ∀ l : List Nat, skipScopeLoop doc scope l =
      l.find? (fun n => !(isElementInScope doc n scope)) := by
  intro l
  induction l with
  | nil => rfl
  | cons n rest ih =>
    by_cases hn : isElementInScope doc n scope = true
    · rw [skipScopeLoop, if_pos hn, ih, List.find?_cons_of_neg]
      simp [hn]
    · rw [skipScopeLoop, if_neg hn, List.find?_cons_of_pos]
      simp
      exact Bool.not_eq_true _ ▸ (by simpa using hn)

lemma onKeyDownRestore_tab {doc : Doc} {body : Nat} {scope : List Nat} {shift : Bool}
    {a : Nat} {ntr : Option Nat} (h : isElementInScope doc a scope = true) :
    onKeyDownRestore doc body scope { key := "Tab", shiftKey := shift } (some a) ntr =
      restoreTabLogic doc body scope shift a ntr := by
  unfold onKeyDownRestore
  simp [h]

/-- C5: for a scope mounted with `contain = false`, when focus is inside
the scope and a Tab (resp. Shift+Tab) would move to a node outside the
scope or to no node at all, and the captured pre-scope restore target is
still attached and is not the document body, focus moves to the next
(resp. previous) tabbable element relative to that restore target in
full-document order, skipping every candidate contained in the scope; if
no such candidate exists, the focused element is blurred so focus falls
back to the platform default (the body). -/
theorem restore_tab_handoff {doc : Doc} {body : Nat} {scope : List Nat} {a t : Nat}
    (shift : Bool)
    (ha : isElementInScope doc a scope = true)
    (hnext : ∀ n, walkerStep doc body none shift a = some n →
      isElementInScope doc n scope = false)
    (hatt : containsNode doc body t = true) (htb : t ≠ body) :
    onKeyDownRestore doc body scope { key := "Tab", shiftKey := shift } (some a) (some t) =
      match (walkerCandidates doc body none shift t).find?
          (fun n => !(isElementInScope doc n scope)) with
      | some n => ⟨true, true, some n, some t⟩
      | none => ⟨true, true, some body, some t⟩ := by
  rw [onKeyDownRestore_tab ha]
  have h1 : restoreTargetCheck doc body (some t) = some t := by
    simp [restoreTargetCheck, hatt, htb]
  have hcond : ((walkerStep doc body none shift a).isNone ||
      !(isElementInScopeOpt doc (walkerStep doc body none shift a) scope)) = true := by
    rcases hw : walkerStep doc body none shift a with _ | n
    · rfl
    · simp [isElementInScopeOpt, hnext n hw]
  simp only [restoreTabLogic, h1, hcond, if_true, skipScopeLoop_eq_find]

/-- Document of the tests "should move focus to the next element after the
previously focused node on Tab": a body (0) holding a before-input (1),
the trigger button (2), an after-input (3), and a `contain = false` scope
of three inputs (5, 6, 7) between hidden sentinels (4, 8). -/
def restoreDoc : Doc :=
  [⟨{ id := 0, nodeName := "BODY" }, 0⟩,
   ⟨{ id := 1, nodeName := "INPUT" }, 1⟩,
   ⟨{ id := 2, nodeName := "BUTTON" }, 1⟩,
   ⟨{ id := 3, nodeName := "INPUT" }, 1⟩,
   ⟨{ id := 4, nodeName := "SPAN", hiddenAttr := true }, 1⟩,
   ⟨{ id := 5, nodeName := "INPUT" }, 1⟩,
   ⟨{ id := 6, nodeName := "INPUT" }, 1⟩,
   ⟨{ id := 7, nodeName := "INPUT" }, 1⟩,
   ⟨{ id := 8, nodeName := "SPAN", hiddenAttr := true }, 1⟩]

/-- C5 witness: Tab from the last scope input (7) with restore target the
trigger button (2) hands focus off past the scope — concretely to the
after-input (3), the first tabbable after the trigger not in the scope. -/
theorem restore_tab_handoff_witness :
    onKeyDownRestore restoreDoc 0 [5, 6, 7] { key := "Tab" } (some 7) (some 2) =
      match (walkerCandidates restoreDoc 0 none false 2).find?
          (fun n => !(isElementInScope restoreDoc n [5, 6, 7])) with
      | some n => ⟨true, true, some n, some 2⟩
      | none => ⟨true, true, some 0, some 2⟩ :=
  restore_tab_handoff false (by decide)
    (fun n h => Option.noConfusion
      ((rfl : walkerStep restoreDoc 0 none false 7 = none).symm.trans h))
    (by decide) (by decide)

/-- C6: on unmount, focus is restored to the captured pre-mount node iff
`restoreFocus` is enabled, the restore target is non-null, focus is inside
the scope at teardown, and the target is still attached at the deferred
animation-frame re-check; a detached target skips restoration and leaves
focus where it is, and a null target never restores. -/
theorem restore_on_unmount {doc docAtFrame : Doc} {body : Nat} {scope : List Nat}
    {restoreFocus : Bool} {t : Nat} {active : Option Nat}
    (hne : active ≠ some t) :
    (useRestoreFocusCleanup doc docAtFrame body scope restoreFocus (some t) active = some t ↔
      (restoreFocus = true ∧ isElementInScopeOpt doc active scope = true ∧
        containsNode docAtFrame body t = true)) ∧
    (containsNode docAtFrame body t = false →
      useRestoreFocusCleanup doc docAtFrame body scope restoreFocus (some t) active = active) ∧
    useRestoreFocusCleanup doc docAtFrame body scope restoreFocus none active = active := by
  refine ⟨⟨?_, ?_⟩, ?_, rfl⟩
  · intro h
    simp only [useRestoreFocusCleanup] at h
    by_cases hrf : (restoreFocus && isElementInScopeOpt doc active scope) = true
    · rw [if_pos hrf] at h
      by_cases hc : containsNode docAtFrame body t = true
      · simp only [Bool.and_eq_true] at hrf
        exact ⟨hrf.1, hrf.2, hc⟩
      · rw [if_neg hc] at h
        exact absurd h hne
    · rw [if_neg hrf] at h
      exact absurd h hne
  · rintro ⟨h1, h2, h3⟩
    simp only [useRestoreFocusCleanup]
    rw [if_pos (by simp [h1, h2]), if_pos h3]
    rfl
  · intro hc
    simp only [useRestoreFocusCleanup]
    by_cases hrf : (restoreFocus && isElementInScopeOpt doc active scope) = true
    · rw [if_pos hrf, if_neg (by simp [hc])]
    · rw [if_neg hrf]

/-- C6 witness: unmounting the restore demo scope with focus on an inner
input (6) and attached restore target the trigger (2) restores focus to
the trigger; the iff's conditions all hold concretely. -/
theorem restore_on_unmount_witness :
    (useRestoreFocusCleanup restoreDoc restoreDoc 0 [5, 6, 7] true (some 2) (some 6) = some 2 ↔
      (true = true ∧ isElementInScopeOpt restoreDoc (some 6) [5, 6, 7] = true ∧
        containsNode restoreDoc 0 2 = true)) ∧
    (containsNode restoreDoc 0 2 = false →
      useRestoreFocusCleanup restoreDoc restoreDoc 0 [5, 6, 7] true (some 2) (some 6) = some 6) ∧
    useRestoreFocusCleanup restoreDoc restoreDoc 0 [5, 6, 7] true none (some 6) = some 6 :=
  restore_on_unmount (by decide)

lemma walkerStep_none_of_no_tabbables {doc : Doc} {root : Nat} {scope : List Nat}
    (hempty : tabbables doc root scope = []) (shift : Bool) (cur : Nat) :
    walkerStep doc root (some scope) shift cur = none := by
  unfold tabbables at hempty
  have hcand : walkerCandidates doc root (some scope) shift cur = [] := by
    cases shift
    · show ((if (cur == root) = true then strictDesc doc root
          else ((strictDesc doc root).dropWhile (fun x => x != cur)).drop 1).filter
        (acceptNode doc (some scope))) = []
      by_cases hc : (cur == root) = true
      · rw [if_pos hc]
        exact hempty
      · rw [if_neg hc]
        have hsub : List.Sublist
            (((strictDesc doc root).dropWhile (fun x => x != cur)).drop 1)
            (strictDesc doc root) :=
          (List.drop_sublist 1 _).trans (List.dropWhile_sublist _)
        have hf := hsub.filter (acceptNode doc (some scope))
        rw [hempty] at hf
        exact List.sublist_nil.mp hf
    · show ((if (cur == root) = true then []
          else ((strictDesc doc root).takeWhile (fun x => x != cur)).reverse).filter
        (acceptNode doc (some scope))) = []
      by_cases hc : (cur == root) = true
      · rw [if_pos hc]
        rfl
      · rw [if_neg hc, List.filter_reverse]
        have hsub : List.Sublist
            ((strictDesc doc root).takeWhile (fun x => x != cur))
            (strictDesc doc root) :=
          List.takeWhile_sublist _
        have hf := hsub.filter (acceptNode doc (some scope))
        rw [hempty] at hf
        rw [List.sublist_nil.mp hf]
        rfl
  unfold walkerStep
  rw [hcand]
  rfl

/-- C4 counterexample: mounting a scope whose node list is empty with the
default `autoFocus = true` throws (`focusFirstInScope` dereferences
`scope[0]`), instead of finding no candidate and degrading to a no-op as
the claim states. -/
theorem empty_scope_counterexample :
    useAutoFocus nonTabDoc ([] : List Nat) true none none = .error () := rfl

/-- C4 amended: a NON-EMPTY scope with no tabbable element is a valid
steady state — containment Tab handling consumes the event and leaves
focus unchanged, auto-focus's `focusFirstInScope` finds no candidate and
leaves focus unchanged, and restoration is unaffected, all without
failing.  For an EMPTY node list, the containment and restoration keydown
handlers and the restore cleanup still leave focus unchanged without
failing, but `getScopeRoot` and `focusFirstInScope` (the auto-focus path)
throw instead of degrading to a no-op. -/
theorem degraded_scope_amended {doc : Doc} (docF : Doc) (body : Nat) {root s : Nat}
    {scope : List Nat}
    (hroot : getScopeRoot doc scope = .ok (some root))
    (hseedF : containWrapSeed doc scope false = some s)
    (hempty : tabbables doc root scope = []) :
    (∀ e active, onKeyDownContain doc ([] : List Nat) e active = .ok ⟨false, active⟩) ∧
    (∀ e active ntr, onKeyDownRestore doc body ([] : List Nat) e active ntr =
      ⟨false, false, active, ntr⟩) ∧
    (∀ rf ntr active, useRestoreFocusCleanup doc docF body ([] : List Nat) rf ntr active =
      active) ∧
    (∀ active, focusFirstInScope doc ([] : List Nat) active = .error ()) ∧
    getScopeRoot doc ([] : List Nat) = .error () ∧
    (∀ active, focusFirstInScope doc scope active = .ok active) ∧
    (∀ a, isElementInScope doc a scope = true →
      onKeyDownContain doc scope { key := "Tab" } (some a) = .ok ⟨true, some a⟩) := by
  refine ⟨?_, ?_, ?_, fun _ => rfl, rfl, ?_, ?_⟩
  · intro e active
    unfold onKeyDownContain
    by_cases hg : (e.key != "Tab" || e.altKey || e.ctrlKey || e.metaKey) = true
    · rw [if_pos hg]
    · rw [if_neg hg]
      rcases active with _ | f
      · rfl
      · rfl
  · intro e active ntr
    unfold onKeyDownRestore
    by_cases hg : (e.key != "Tab" || e.altKey || e.ctrlKey || e.metaKey) = true
    · rw [if_pos hg]
    · rw [if_neg hg]
      rcases active with _ | f
      · rfl
      · rfl
  · intro rf ntr active
    rcases ntr with _ | t
    · rfl
    · simp [useRestoreFocusCleanup, isElementInScopeOpt]
      rcases active with _ | x
      · simp
      · simp [isElementInScope]
  · intro active
    rcases hsc : scope with _ | ⟨first, rest⟩
    · rw [hsc] at hroot
      exact absurd hroot (by simp [getScopeRoot])
    · have hpar : parentOf doc first = some root := by
        rw [hsc] at hroot
        simpa [getScopeRoot] using hroot
      have hprev : prevElementSibling doc first = some s := by
        rw [hsc] at hseedF
        simpa [containWrapSeed] using hseedF
      have hws : walkerStep doc root (some scope) false s = none :=
        walkerStep_none_of_no_tabbables hempty false s
      rw [hsc] at hws
      simp only [focusFirstInScope, hpar, hprev, hws]
      rfl
  · intro a ha
    rw [onKeyDownContain_tab ha,
      containTabLogic_wrap hroot (walkerStep_none_of_no_tabbables hempty false a) hseedF,
      walkerStep_none_of_no_tabbables hempty false s]
    rfl

/-- C4 amended witness: the single-div scope of `nonTabDoc` (no tabbable
elements) and the empty scope, at concrete inputs. -/
theorem degraded_scope_amended_witness :
    onKeyDownContain nonTabDoc ([] : List Nat) { key := "Tab" } (some 2) =
      .ok ⟨false, some 2⟩ ∧
    onKeyDownRestore nonTabDoc 0 ([] : List Nat) { key := "Tab" } (some 2) none =
      ⟨false, false, some 2, none⟩ ∧
    useRestoreFocusCleanup nonTabDoc nonTabDoc 0 ([] : List Nat) true (some 2) (some 2) =
      some 2 ∧
    focusFirstInScope nonTabDoc ([] : List Nat) none = .error () ∧
    getScopeRoot nonTabDoc ([] : List Nat) = .error () ∧
    focusFirstInScope nonTabDoc [2] none = .ok none ∧
    onKeyDownContain nonTabDoc [2] { key := "Tab" } (some 2) = .ok ⟨true, some 2⟩ := by
  have h := degraded_scope_amended nonTabDoc 0
    (show getScopeRoot nonTabDoc [2] = .ok (some 0) from rfl)
    (show containWrapSeed nonTabDoc [2] false = some 1 from rfl)
    (show tabbables nonTabDoc 0 [2] = [] from rfl)
  exact ⟨h.1 _ _, h.2.1 _ _ _, h.2.2.1 _ _ _, h.2.2.2.1 _, h.2.2.2.2.1,
    h.2.2.2.2.2.1 _, h.2.2.2.2.2.2 2 (by decide)⟩

/-- Modelled from the spec: the visibility predicate exactly as claim C7
states it — the node is not a comment node, its inline style sets neither
`display:none` nor `visibility:hidden/collapse`, its computed style sets
neither of them either, it does not carry the `hidden` attribute (except
that a closed `DETAILS` container hides only its non-`SUMMARY` children),
and every ancestor satisfies the same predicate up the parent chain. -/
def specVisibleAux : Elem → Option Elem → List Elem → Bool
  | element, childElement, ancestors =>
    element.nodeName != "#comment" &&
    ((element.styleDisplay != "none" && element.styleVisibility != "hidden" &&
        element.styleVisibility != "collapse") &&
      (element.computedDisplay != "none" && element.computedVisibility != "hidden" &&
        element.computedVisibility != "collapse")) &&
    (!element.hiddenAttr &&
      (if element.nodeName == "DETAILS" &&
          (match childElement with
           | some c => c.nodeName != "SUMMARY"
           | none => false) then
        element.openAttr
      else true)) &&
    (match ancestors with
     | [] => true
     | p :: rest => specVisibleAux p (some element) rest)

/-- The claim's predicate amended with the one conjunct it misses: the
node must be an HTML or SVG element (the `instanceof` guard of
`isStyleVisible`), at every level of the ancestor chain. -/
def specVisibleFixedAux : Elem → Option Elem → List Elem → Bool
  | element, childElement, ancestors =>
    element.nodeName != "#comment" &&
    (element.isHTMLOrSVG &&
      (element.styleDisplay != "none" && element.styleVisibility != "hidden" &&
        element.styleVisibility != "collapse") &&
      (element.computedDisplay != "none" && element.computedVisibility != "hidden" &&
        element.computedVisibility != "collapse")) &&
    (!element.hiddenAttr &&
      (if element.nodeName == "DETAILS" &&
          (match childElement with
           | some c => c.nodeName != "SUMMARY"
           | none => false) then
        element.openAttr
      else true)) &&
    (match ancestors with
     | [] => true
     | p :: rest => specVisibleFixedAux p (some element) rest)

lemma isStyleVisible_eq (el : Elem) :
    isStyleVisible el = (el.isHTMLOrSVG &&
      (el.styleDisplay != "none" && el.styleVisibility != "hidden" &&
        el.styleVisibility != "collapse") &&
      (el.computedDisplay != "none" && el.computedVisibility != "hidden" &&
        el.computedVisibility != "collapse")) := by
  unfold isStyleVisible
  cases hf : el.isHTMLOrSVG
  · simp
  · simp only [Bool.not_true, Bool.false_eq_true, if_false, Bool.true_and]
    cases hin : (el.styleDisplay != "none" && el.styleVisibility != "hidden" &&
        el.styleVisibility != "collapse")
    · simp
    · simp

lemma visible_level_eq (el : Elem) (c : Option Elem) (b : Bool) :
    (el.nodeName != "#comment" && isStyleVisible el && isAttributeVisible el c && b) =
    (el.nodeName != "#comment" &&
      (el.isHTMLOrSVG &&
        (el.styleDisplay != "none" && el.styleVisibility != "hidden" &&
          el.styleVisibility != "collapse") &&
        (el.computedDisplay != "none" && el.computedVisibility != "hidden" &&
          el.computedVisibility != "collapse")) &&
      (!el.hiddenAttr &&
        (if el.nodeName == "DETAILS" &&
            (match c with
             | some ce => ce.nodeName != "SUMMARY"
             | none => false) then
          el.openAttr
        else true)) && b) := by
  rw [isStyleVisible_eq]
  rfl

/-- C7 counterexample: an element that is not an HTML or SVG element but
satisfies every condition the claim lists (not a comment, visible inline
and computed styles, no hidden attribute, no ancestors) is rejected by the
code's visibility predicate, so the claim's "if and only if" fails. -/
theorem visibility_predicate_counterexample :
    isElementVisibleAux { id := 100, nodeName := "MATH", isHTMLOrSVG := false } none [] =
      false ∧
    specVisibleAux { id := 100, nodeName := "MATH", isHTMLOrSVG := false } none [] = true :=
  ⟨rfl, rfl⟩

/-- C7 amended: the visibility predicate accepts a node if and only if the
node is not a comment node, it is an HTML or SVG element, its own inline
and computed styles set neither `display:none` nor
`visibility:hidden/collapse`, it does not carry the `hidden` attribute
(with the details/summary exception), and every ancestor element satisfies
the same predicate up the parent chain. -/
theorem visibility_predicate_amended :
    ∀ (ancestors : List Elem) (element : Elem) (childElement : Option Elem),
      isElementVisibleAux element childElement ancestors =
        specVisibleFixedAux element childElement ancestors := by
  intro ancestors
  induction ancestors with
  | nil =>
    intro el c
    exact visible_level_eq el c true
  | cons p rest ih =>
    intro el c
    have h := visible_level_eq el c (isElementVisibleAux p (some el) rest)
    nth_rewrite 2 [ih p (some el)] at h
    exact h
